import Mathlib

/-!
Verification of the Bingo card generator (src/Bingo.py).

The Python program is shallowly embedded: the field record becomes a sum
type, the random source (random.sample and random.randrange) becomes an
explicit oracle record whose contracts are stated as predicates, the word
file becomes a list of lines, and functions that can raise return Except.
-/

namespace Bingo

/-- Cell of a card.  The source represents a cell as a named tuple
Field(type, value) with type one of normal, empty, bonus; value is only
used for normal cells, so the embedding is a sum type. -/
inductive Field where
  | normal (value : String)
  | empty
  | bonus
deriving DecidableEq

/-- FIELD_EMPTY from the source. -/
def FIELD_EMPTY : Field := Field.empty

/-- FIELD_BONUS from the source. -/
def FIELD_BONUS : Field := Field.bonus

/-- Oracle for the random source.  sample models random.sample(population, k)
and randrange models random.randrange(lo, hi); their guarantees are the
predicates SampleOk and RandrangeOk below. -/
structure Rng where
  sample : List String → Nat → List String
  randrange : Nat → Nat → Nat

/-- Contract of random.sample: for k not exceeding the population size it
returns k elements of the population, distinct whenever the population has
no duplicates. -/
def SampleOk (rng : Rng) : Prop :=
  ∀ (pop : List String) (k : Nat), k ≤ pop.length →
    (rng.sample pop k).length = k ∧
    (∀ w ∈ rng.sample pop k, w ∈ pop) ∧
    (pop.Nodup → (rng.sample pop k).Nodup)

/-- Contract of random.randrange(lo, hi) for lo < hi: the result lies in
the half open interval.  With an empty range randrange raises ValueError,
which build_table models separately. -/
def RandrangeOk (rng : Rng) : Prop :=
  ∀ lo hi : Nat, lo < hi → lo ≤ rng.randrange lo hi ∧ rng.randrange lo hi < hi

/-- Deterministic oracle satisfying both contracts; used to evaluate the
program on concrete inputs. -/
def rng0 : Rng :=
  { sample := fun pop k => pop.take k
    randrange := fun lo _ => lo }

/-- take(iterable, n) from the source: the first n items as a list. -/
def take (iterable : List α) (n : Nat) : List α :=
  iterable.take n

/-- collect_random_sublist(values, n): sample of min(n, len(values))
elements. -/
def collect_random_sublist (rng : Rng) (values : List String) (n : Nat) :
    List String :=
  rng.sample values (min n values.length)

/-- to_fields(values, n): normal fields from the values, then empty fields,
truncated to n items.  The source chains an infinite repeat of FIELD_EMPTY;
since take reads at most n items, a supply of n empty fields is enough. -/
def to_fields (values : List String) (n : Nat) : List Field :=
  take (values.map Field.normal ++ List.replicate n FIELD_EMPTY) n

/-- field_total is the local variable size ** 2 of build_table, as a natural
number (a square of an integer is never negative). -/
def field_total (size : Int) : Nat :=
  (size ^ 2).toNat

/-- Field list of one card before grouping: the padded sequence, with the
field at the randrange position replaced by FIELD_BONUS when the bonus
field is requested. -/
def table_fields (rng : Rng) (values : List String) (size : Int)
    (include_bonus_field : Bool) : List Field :=
  let ft := field_total size
  let fields := to_fields (collect_random_sublist rng values ft) ft
  if include_bonus_field then
    fields.set (rng.randrange 0 ft) FIELD_BONUS
  else
    fields

/-- Fuel driven worker for the grouping; the fuel starts at the list length
and each step consumes at least one element, so it never runs out. -/
def group_rows_go (n : Nat) : Nat → List α → List (List α)
  | _, [] => []
  | 0, _ :: _ => []
  | fuel + 1, x :: xs => (x :: xs).take n :: group_rows_go n fuel ((x :: xs).drop n)

/-- Grouping step of build_table, izip_longest(*[iter(fields)] * size):
consecutive rows of size elements each.  For size not positive the argument
list of izip_longest is empty and no rows are produced. -/
def group_rows (size : Int) (l : List α) : List (List α) :=
  if size ≤ 0 then [] else group_rows_go size.toNat l.length l

/-- build_table(values, size, include_bonus_field).  randrange(0, field_total)
raises ValueError exactly when field_total = 0, modeled as the error
branch; otherwise the padded (and possibly bonus substituted) sequence is
grouped into rows. -/
def build_table (rng : Rng) (values : List String) (size : Int)
    (include_bonus_field : Bool) : Except String (List (List Field)) :=
  if include_bonus_field ∧ field_total size = 0 then
    Except.error "ValueError: empty range for randrange()"
  else
    Except.ok (group_rows size (table_fields rng values size include_bonus_field))

/-- Python str.strip(): remove leading and trailing whitespace. -/
def strip (s : String) : String :=
  String.mk (((s.data.dropWhile Char.isWhitespace).reverse.dropWhile
    Char.isWhitespace).reverse)

/-- load_words(filename), with the file given as its list of lines: every
line is stripped and only non empty results are kept. -/
def load_words (lines : List String) : List String :=
  (lines.map strip).filter (fun line => !(line == ""))

/-- frozenset(load_words(args.words_file)) from the main block: the loaded
words with duplicates collapsed. -/
def word_set (lines : List String) : List String :=
  (load_words lines).dedup

/-- Escaping of one character as performed by markupsafe for Jinja2 with
autoescape on. -/
def escape_char (c : Char) : String :=
  if c = '&' then "&amp;"
  else if c = '<' then "&lt;"
  else if c = '>' then "&gt;"
  else if c = '\'' then "&#39;"
  else if c = '"' then "&#34;"
  else String.singleton c

/-- Escaping of a character list, one character at a time. -/
def escape_list : List Char → String
  | [] => ""
  | c :: cs => escape_char c ++ escape_list cs

/-- HTML entity escaping applied by the autoescaping template engine to
interpolated values. -/
def jinja_escape (s : String) : String :=
  escape_list s.data

/-- Body text of one td cell of TEMPLATE: the escaped word for a normal
field, the fixed bonus marker, or the dash placeholder. -/
def render_field (f : Field) : String :=
  match f with
  | Field.normal value => jinja_escape value
  | Field.empty => "-"
  | Field.bonus => "<strong>Bingo!</strong>"

/-- One td element of TEMPLATE. -/
def render_td (f : Field) : String :=
  "<td>" ++ render_field f ++ "</td>"

/-- One tr element of TEMPLATE. -/
def render_tr (row : List Field) : String :=
  "<tr>" ++ String.join (row.map render_td) ++ "</tr>"

/-- Heading and table element that TEMPLATE emits per card. -/
def render_table (t : List (List Field)) : String :=
  "<h1>Bullshit Bingo</h1><table cellspacing=\"0\">"
    ++ String.join (t.map render_tr) ++ "</table>"

/-- Document head of TEMPLATE up to the card loop.  The static CSS style
block of the source template carries no per card content and is elided, as
is inter tag whitespace. -/
def page_head : String :=
  "<!DOCTYPE html><html><head><meta charset=\"utf-8\"/><title>Bullshit Bingo</title></head><body>"

/-- Document tail of TEMPLATE after the card loop. -/
def page_foot : String :=
  "</body></html>"

/-- render_html(tables): the full document assembled from the template. -/
def render_html (tables : List (List (List Field))) : String :=
  page_head ++ String.join (tables.map render_table) ++ page_foot

/-- Predicate for normal fields. -/
def is_normal : Field → Bool
  | Field.normal _ => true
  | _ => false

/-- Predicate for empty fields. -/
def is_empty : Field → Bool
  | Field.empty => true
  | _ => false

/-- Predicate for the bonus field. -/
def is_bonus : Field → Bool
  | Field.bonus => true
  | _ => false

/-- Word held by a normal field. -/
def normal_value : Field → Option String
  | Field.normal w => some w
  | _ => none

/-- Number of normal cells of a grid. -/
def count_normal (g : List (List Field)) : Nat :=
  g.flatten.countP is_normal

/-- Number of empty cells of a grid. -/
def count_empty (g : List (List Field)) : Nat :=
  g.flatten.countP is_empty

/-- Number of bonus cells of a grid. -/
def count_bonus (g : List (List Field)) : Nat :=
  g.flatten.countP is_bonus

/-- Words of the normal cells of a grid, in row major order. -/
def normal_words (g : List (List Field)) : List String :=
  g.flatten.filterMap normal_value

/-- Record built by parse_args. -/
structure Args where
  words_file : String
  include_bonus_field : Bool
  num_cards : Int
  card_size : Int

/-- parse_args: argparse applies plain int conversion to the -c and -s
options and performs no range validation, so every integer is accepted
as given. -/
def parse_args (words_file : String) (include_bonus_field : Bool)
    (num_cards card_size : Int) : Args :=
  { words_file := words_file
    include_bonus_field := include_bonus_field
    num_cards := num_cards
    card_size := card_size }

/-- Main block of the source: load and deduplicate the words, build
num_cards tables (xrange of a non positive count is empty), render them.
The single global random stream is modeled by one oracle. -/
def main_program (rng : Rng) (lines : List String) (args : Args) :
    Except String String := do
  let words := word_set lines
  let tables ← (List.range args.num_cards.toNat).mapM
    (fun _ => build_table rng words args.card_size args.include_bonus_field)
  pure (render_html tables)

/-! Helper lemmas about the grouping step. -/

lemma group_rows_go_congr {α : Type _} (n : Nat) (hn : 0 < n) :
    ∀ (fuel₁ fuel₂ : Nat) (l : List α), l.length ≤ fuel₁ → l.length ≤ fuel₂ →
      group_rows_go n fuel₁ l = group_rows_go n fuel₂ l := by
  intro fuel₁
  induction fuel₁ with
  | zero =>
    intro fuel₂ l h₁ h₂
    have hl : l = [] := List.length_eq_zero.mp (Nat.le_zero.mp h₁)
    subst hl
    cases fuel₂ <;> rfl
  | succ f ih =>
    intro fuel₂ l h₁ h₂
    cases l with
    | nil => cases fuel₂ <;> rfl
    | cons x xs =>
      cases fuel₂ with
      | zero => simp at h₂
      | succ g =>
        simp only [group_rows_go]
        congr 1
        apply ih
        · simp only [List.length_drop, List.length_cons]
          simp only [List.length_cons] at h₁
          omega
        · simp only [List.length_drop, List.length_cons]
          simp only [List.length_cons] at h₂
          omega

lemma group_rows_nil {α : Type _} (size : Int) :
    group_rows size ([] : List α) = [] := by
  unfold group_rows
  split <;> rfl

lemma group_rows_cons {α : Type _} (size : Int) (hs : 1 ≤ size) (l : List α)
    (hl : l ≠ []) :
    group_rows size l =
      l.take size.toNat :: group_rows size (l.drop size.toNat) := by
  obtain ⟨x, xs, rfl⟩ := List.exists_cons_of_ne_nil hl
  have hn : 0 < size.toNat := by omega
  have hnot : ¬ size ≤ 0 := by omega
  simp only [group_rows, if_neg hnot]
  show group_rows_go size.toNat (xs.length + 1) (x :: xs) = _
  show (x :: xs).take size.toNat
      :: group_rows_go size.toNat xs.length ((x :: xs).drop size.toNat) = _
  congr 1
  apply group_rows_go_congr size.toNat hn
  · simp only [List.length_drop, List.length_cons]
    omega
  · exact le_rfl

lemma group_rows_go_flatten {α : Type _} (n : Nat) (hn : 0 < n) :
    ∀ (fuel : Nat) (l : List α), l.length ≤ fuel →
      (group_rows_go n fuel l).flatten = l := by
  intro fuel
  induction fuel with
  | zero =>
    intro l h
    have hl : l = [] := List.length_eq_zero.mp (Nat.le_zero.mp h)
    subst hl
    rfl
  | succ f ih =>
    intro l h
    cases l with
    | nil => rfl
    | cons x xs =>
      simp only [group_rows_go, List.flatten_cons]
      rw [ih]
      · exact List.take_append_drop n (x :: xs)
      · simp only [List.length_drop, List.length_cons]
        simp only [List.length_cons] at h
        omega

lemma group_rows_flatten {α : Type _} (size : Int) (hs : 1 ≤ size) (l : List α) :
    (group_rows size l).flatten = l := by
  have hnot : ¬ size ≤ 0 := by omega
  simp only [group_rows, if_neg hnot]
  exact group_rows_go_flatten size.toNat (by omega) l.length l le_rfl

lemma group_rows_length {α : Type _} (size : Int) (hs : 1 ≤ size) :
    ∀ (k : Nat) (l : List α), l.length = size.toNat * k →
      (group_rows size l).length = k := by
  intro k
  induction k with
  | zero =>
    intro l h
    have hl : l = [] := List.length_eq_zero.mp (by simpa using h)
    subst hl
    simp [group_rows_nil]
  | succ k ih =>
    intro l h
    rw [Nat.mul_succ] at h
    have hn : 0 < size.toNat := by omega
    have hl : l ≠ [] := by
      intro he
      subst he
      simp only [List.length_nil] at h
      omega
    rw [group_rows_cons size hs l hl]
    simp only [List.length_cons]
    rw [ih (l.drop size.toNat) (by simp only [List.length_drop]; omega)]

lemma group_rows_row_length {α : Type _} (size : Int) (hs : 1 ≤ size) :
    ∀ (k : Nat) (l : List α), l.length = size.toNat * k →
      ∀ row ∈ group_rows size l, row.length = size.toNat := by
  intro k
  induction k with
  | zero =>
    intro l h row hrow
    have hl : l = [] := List.length_eq_zero.mp (by simpa using h)
    subst hl
    rw [group_rows_nil] at hrow
    simp at hrow
  | succ k ih =>
    intro l h row hrow
    rw [Nat.mul_succ] at h
    have hn : 0 < size.toNat := by omega
    have hl : l ≠ [] := by
      intro he
      subst he
      simp only [List.length_nil] at h
      omega
    rw [group_rows_cons size hs l hl] at hrow
    rcases List.mem_cons.mp hrow with h1 | h2
    · subst h1
      simp only [List.length_take]
      omega
    · exact ih (l.drop size.toNat) (by simp only [List.length_drop]; omega) row h2

lemma group_rows_getElem {α : Type _} (size : Int) (hs : 1 ≤ size) :
    ∀ (k : Nat) (l : List α), l.length = size.toNat * k →
      ∀ (i : Nat) (hi : i < (group_rows size l).length),
        (group_rows size l)[i] =
          (l.drop (i * size.toNat)).take size.toNat := by
  intro k
  induction k with
  | zero =>
    intro l h i hi
    have hl : l = [] := List.length_eq_zero.mp (by simpa using h)
    subst hl
    rw [group_rows_nil] at hi
    simp at hi
  | succ k ih =>
    intro l h i hi
    rw [Nat.mul_succ] at h
    have hn : 0 < size.toNat := by omega
    have hl : l ≠ [] := by
      intro he
      subst he
      simp only [List.length_nil] at h
      omega
    rw [List.getElem_of_eq (group_rows_cons size hs l hl) hi]
    rw [group_rows_cons size hs l hl] at hi
    cases i with
    | zero =>
      simp
    | succ i =>
      rw [List.getElem_cons_succ]
      have hd : (l.drop size.toNat).length = size.toNat * k := by
        simp only [List.length_drop]
        omega
      have hi2 : i < (group_rows size (l.drop size.toNat)).length := by
        simp only [List.length_cons] at hi
        omega
      rw [ih (l.drop size.toNat) hd i hi2]
      rw [List.drop_drop]
      congr 2
      ring

/-! Helper lemmas about the field sequence. -/

lemma to_fields_length (rv : List String) (n : Nat) :
    (to_fields rv n).length = n := by
  simp only [to_fields, take, List.length_take, List.length_append,
    List.length_map, List.length_replicate]
  omega

lemma to_fields_eq (rv : List String) (n : Nat) (h : rv.length ≤ n) :
    to_fields rv n =
      rv.map Field.normal ++ List.replicate (n - rv.length) FIELD_EMPTY := by
  unfold to_fields take
  rw [List.take_append_eq_append_take]
  rw [List.take_of_length_le (by simpa using h)]
  rw [List.take_replicate]
  congr 1
  simp only [List.length_map]
  rw [min_eq_left (Nat.sub_le n rv.length)]

lemma to_fields_no_bonus (rv : List String) (n : Nat) :
    ∀ f ∈ to_fields rv n, is_bonus f = false := by
  intro f hf
  unfold to_fields take at hf
  have hf2 := List.mem_of_mem_take hf
  rcases List.mem_append.mp hf2 with h | h
  · obtain ⟨w, -, rfl⟩ := List.mem_map.mp h
    rfl
  · rw [List.eq_of_mem_replicate h]
    rfl

lemma countP_is_bonus_to_fields (rv : List String) (n : Nat) :
    (to_fields rv n).countP is_bonus = 0 := by
  rw [List.countP_eq_zero]
  intro f hf
  rw [to_fields_no_bonus rv n f hf]
  exact Bool.false_ne_true

lemma countP_is_normal_to_fields (rv : List String) (n : Nat)
    (h : rv.length ≤ n) :
    (to_fields rv n).countP is_normal = rv.length := by
  rw [to_fields_eq rv n h, List.countP_append, List.countP_map,
    List.countP_replicate]
  have h1 : (is_normal ∘ Field.normal) = fun _ => true := by
    funext w
    rfl
  rw [h1, List.countP_true]
  simp [is_normal, FIELD_EMPTY]

lemma countP_is_empty_to_fields (rv : List String) (n : Nat)
    (h : rv.length ≤ n) :
    (to_fields rv n).countP is_empty = n - rv.length := by
  rw [to_fields_eq rv n h, List.countP_append, List.countP_map,
    List.countP_replicate]
  have h1 : (is_empty ∘ Field.normal) = fun _ => false := by
    funext w
    rfl
  rw [h1]
  simp [is_empty, FIELD_EMPTY]

lemma filterMap_to_fields (rv : List String) (n : Nat) (h : rv.length ≤ n) :
    (to_fields rv n).filterMap normal_value = rv := by
  rw [to_fields_eq rv n h, List.filterMap_append, List.filterMap_map]
  have h1 : (normal_value ∘ Field.normal) = some := by
    funext w
    rfl
  rw [h1, List.filterMap_some]
  have h2 : (List.replicate (n - rv.length) FIELD_EMPTY).filterMap
      normal_value = [] := by
    rw [List.filterMap_eq_nil_iff]
    intro f hf
    rw [List.eq_of_mem_replicate hf]
    rfl
  rw [h2, List.append_nil]

lemma to_fields_getElem_lt (rv : List String) (n r : Nat) (h : rv.length ≤ n)
    (hr : r < rv.length) (hr2 : r < (to_fields rv n).length) :
    (to_fields rv n)[r] = Field.normal rv[r] := by
  have he := to_fields_eq rv n h
  rw [List.getElem_of_eq he hr2]
  rw [List.getElem_append_left (by simpa using hr)]
  rw [List.getElem_map]

lemma to_fields_getElem_ge (rv : List String) (n r : Nat) (h : rv.length ≤ n)
    (hr : rv.length ≤ r) (hr2 : r < (to_fields rv n).length) :
    (to_fields rv n)[r] = FIELD_EMPTY := by
  have he := to_fields_eq rv n h
  rw [List.getElem_of_eq he hr2]
  rw [List.getElem_append_right (by simpa using hr)]
  rw [List.getElem_replicate]

/-! Helper lemmas about field_total and table_fields. -/

lemma field_total_eq (size : Int) (hs : 0 ≤ size) :
    field_total size = size.toNat * size.toNat := by
  unfold field_total
  obtain ⟨n, rfl⟩ := Int.eq_ofNat_of_zero_le hs
  have h1 : ((n : Int) ^ 2) = ((n ^ 2 : Nat) : Int) := by
    push_cast
    ring
  rw [h1, Int.toNat_natCast, Int.toNat_natCast]
  ring

lemma field_total_eq_zero_iff (size : Int) : field_total size = 0 ↔ size = 0 := by
  unfold field_total
  rw [Int.toNat_eq_zero]
  constructor
  · intro h
    have h2 : size ^ 2 = 0 := le_antisymm h (sq_nonneg size)
    exact (pow_eq_zero_iff (by norm_num)).mp h2
  · rintro rfl
    norm_num

lemma table_fields_length (rng : Rng) (values : List String) (size : Int)
    (b : Bool) :
    (table_fields rng values size b).length = field_total size := by
  unfold table_fields
  cases b
  · simp only [Bool.false_eq_true, if_false, to_fields_length]
  · simp only [if_true, List.length_set, to_fields_length]

/-! Helper lemmas about counting and the bonus substitution. -/

lemma countP_set_add {α : Type _} (p : α → Bool) :
    ∀ (l : List α) (r : Nat) (a : α) (hr : r < l.length),
      (l.set r a).countP p + (if p l[r] then 1 else 0) =
        l.countP p + (if p a then 1 else 0) := by
  intro l
  induction l with
  | nil =>
    intro r a hr
    simp at hr
  | cons x xs ih =>
    intro r a hr
    cases r with
    | zero =>
      rw [List.set_cons_zero]
      simp only [List.countP_cons, List.getElem_cons_zero]
      omega
    | succ r =>
      rw [List.set_cons_succ]
      simp only [List.countP_cons, List.getElem_cons_succ]
      have h2 := ih r a (by simpa using hr)
      omega

lemma filterMap_set_bonus_sublist :
    ∀ (l : List Field) (r : Nat),
      ((l.set r FIELD_BONUS).filterMap normal_value).Sublist
        (l.filterMap normal_value) := by
  intro l
  induction l with
  | nil =>
    intro r
    simp
  | cons x xs ih =>
    intro r
    cases r with
    | zero =>
      rw [List.set_cons_zero]
      cases hx : normal_value x with
      | none =>
        simp only [List.filterMap_cons, hx]
        show (List.filterMap normal_value xs).Sublist _
        exact List.Sublist.refl _
      | some w =>
        simp only [List.filterMap_cons, hx]
        show (List.filterMap normal_value xs).Sublist _
        exact List.sublist_cons_self w _
    | succ r =>
      rw [List.set_cons_succ]
      cases hx : normal_value x with
      | none =>
        simp only [List.filterMap_cons, hx]
        exact ih r
      | some w =>
        simp only [List.filterMap_cons, hx]
        exact (List.cons_sublist_cons).mpr (ih r)

/-! The deterministic oracle satisfies both contracts. -/

lemma rng0_sample_ok : SampleOk rng0 := by
  intro pop k hk
  refine ⟨?_, ?_, ?_⟩
  · simp only [rng0, List.length_take]
    omega
  · intro w hw
    exact List.mem_of_mem_take hw
  · intro hnd
    exact (List.take_sublist k pop).nodup hnd

lemma rng0_randrange_ok : RandrangeOk rng0 := by
  intro lo hi h
  exact ⟨le_rfl, h⟩

lemma table_fields_false (rng : Rng) (values : List String) (size : Int) :
    table_fields rng values size false =
      to_fields (collect_random_sublist rng values (field_total size))
        (field_total size) := rfl

lemma table_fields_true (rng : Rng) (values : List String) (size : Int) :
    table_fields rng values size true =
      (to_fields (collect_random_sublist rng values (field_total size))
        (field_total size)).set (rng.randrange 0 (field_total size))
        FIELD_BONUS := rfl

lemma filterMap_to_fields_sublist (rv : List String) (n : Nat) :
    ((to_fields rv n).filterMap normal_value).Sublist rv := by
  rcases le_or_lt rv.length n with h | h
  · rw [filterMap_to_fields rv n h]
  · have he : to_fields rv n = (rv.take n).map Field.normal := by
      unfold to_fields take
      rw [List.take_append_eq_append_take]
      have h0 : n - (rv.map Field.normal).length = 0 := by
        simp only [List.length_map]
        omega
      rw [h0]
      simp only [List.take_zero, List.append_nil]
      rw [← List.map_take]
    rw [he, List.filterMap_map]
    have h1 : (normal_value ∘ Field.normal) = some := by
      funext w
      rfl
    rw [h1, List.filterMap_some]
    exact List.take_sublist n rv

lemma normal_words_build_sublist (rng : Rng) (values : List String)
    (size : Int) (b : Bool) (hs : 1 ≤ size) :
    (normal_words (group_rows size (table_fields rng values size b))).Sublist
      (collect_random_sublist rng values (field_total size)) := by
  unfold normal_words
  rw [group_rows_flatten size hs]
  cases b
  · rw [table_fields_false]
    exact filterMap_to_fields_sublist _ _
  · rw [table_fields_true]
    exact (filterMap_set_bonus_sublist _ _).trans
      (filterMap_to_fields_sublist _ _)

/-! Helper lemmas about escaping. -/

lemma escape_char_safe (c : Char) :
    '<' ∉ (escape_char c).data ∧ '>' ∉ (escape_char c).data := by
  unfold escape_char
  split_ifs with h1 h2 h3 h4 h5
  · exact ⟨by decide, by decide⟩
  · exact ⟨by decide, by decide⟩
  · exact ⟨by decide, by decide⟩
  · exact ⟨by decide, by decide⟩
  · exact ⟨by decide, by decide⟩
  · constructor
    · intro hm
      have hc : '<' = c := by simpa [String.singleton] using hm
      exact h2 hc.symm
    · intro hm
      have hc : '>' = c := by simpa [String.singleton] using hm
      exact h3 hc.symm

lemma escape_list_safe (cs : List Char) :
    '<' ∉ (escape_list cs).data ∧ '>' ∉ (escape_list cs).data := by
  induction cs with
  | nil =>
    constructor <;> intro hm <;> exact absurd hm (by decide)
  | cons c cs ih =>
    simp only [escape_list, String.data_append, List.mem_append]
    have hc := escape_char_safe c
    tauto

/-! Settled claims. -/

/-- Claim C1: for every word set, every size at least 1 and either bonus
flag, build_table succeeds and its grid has exactly size rows of size cells
each, row i being the slice of the padded sequence from position i * size
to i * size + size - 1 (row major order). -/
theorem build_table_shape (rng : Rng) (values : List String) (size : Int)
    (include_bonus_field : Bool) (hs : 1 ≤ size) :
    ∃ g, build_table rng values size include_bonus_field = Except.ok g ∧
      g.length = size.toNat ∧
      (∀ row ∈ g, row.length = size.toNat) ∧
      (∀ (i : Nat) (hi : i < g.length),
        g[i] = ((table_fields rng values size include_bonus_field).drop
          (i * size.toNat)).take size.toNat) := by
  have hft : field_total size ≠ 0 := by
    rw [Ne, field_total_eq_zero_iff]
    omega
  have hlen : (table_fields rng values size include_bonus_field).length =
      size.toNat * size.toNat := by
    rw [table_fields_length, field_total_eq size (by omega)]
  refine ⟨group_rows size (table_fields rng values size include_bonus_field),
    ?_, ?_, ?_, ?_⟩
  · unfold build_table
    rw [if_neg (by rintro ⟨-, h⟩; exact hft h)]
  · exact group_rows_length size hs size.toNat _ hlen
  · exact group_rows_row_length size hs size.toNat _ hlen
  · exact group_rows_getElem size hs size.toNat _ hlen

/-- Witness for claim C1 at a concrete input. -/
theorem build_table_shape_witness :
    (1 : Int) ≤ 2 ∧
    (∃ g, build_table rng0 ["a", "b", "c", "d", "e"] 2 true = Except.ok g ∧
      g.length = (2 : Int).toNat ∧
      (∀ row ∈ g, row.length = (2 : Int).toNat) ∧
      (∀ (i : Nat) (hi : i < g.length),
        g[i] = ((table_fields rng0 ["a", "b", "c", "d", "e"] 2 true).drop
          (i * (2 : Int).toNat)).take (2 : Int).toNat)) :=
  ⟨by norm_num,
   build_table_shape rng0 ["a", "b", "c", "d", "e"] 2 true (by norm_num)⟩

/-- Counterexample to claim C3 as stated: at size 0 with the bonus flag on,
build_table does not return a grid; randrange(0, 0) raises ValueError. -/
theorem size_zero_bonus_error_cex :
    ¬ ∃ g, build_table rng0 ["x"] 0 true = Except.ok g := by
  rintro ⟨g, hg⟩
  rw [show build_table rng0 ["x"] 0 true =
      Except.error "ValueError: empty range for randrange()" from rfl] at hg
  exact Except.noConfusion hg

/-- Claim C3 amended: at size 0 with the bonus flag off, build_table returns
the grid with zero rows and zero cells for every word set; with the bonus
flag on it raises ValueError instead, because randrange is called on the
empty range [0, 0). -/
theorem build_table_size_zero (rng : Rng) (values : List String) :
    build_table rng values 0 false = Except.ok [] ∧
    build_table rng values 0 true =
      Except.error "ValueError: empty range for randrange()" := by
  constructor
  · unfold build_table
    rw [if_neg (by rintro ⟨h, -⟩; exact Bool.false_ne_true h)]
    have hg : group_rows (0 : Int) (table_fields rng values 0 false) = [] := by
      unfold group_rows
      rw [if_pos (by norm_num)]
    rw [hg]
  · unfold build_table
    rw [if_pos ⟨rfl, rfl⟩]

/-- Claim C10: for every strictly negative size, every word set and either
bonus flag, build_table completes without an error and returns a grid with
zero rows: the squared field total is positive, so randrange does not
raise, while grouping over a negative size produces no rows. -/
theorem build_table_negative_size (rng : Rng) (values : List String)
    (size : Int) (include_bonus_field : Bool) (hs : size < 0) :
    build_table rng values size include_bonus_field = Except.ok [] := by
  have hft : field_total size ≠ 0 := by
    rw [Ne, field_total_eq_zero_iff]
    omega
  unfold build_table
  rw [if_neg (by rintro ⟨-, h⟩; exact hft h)]
  have hg : group_rows size
      (table_fields rng values size include_bonus_field) = [] := by
    unfold group_rows
    rw [if_pos (by omega)]
  rw [hg]

/-- Witness for claim C10 at a concrete input. -/
theorem build_table_negative_size_witness :
    (-2 : Int) < 0 ∧ build_table rng0 ["a"] (-2) true = Except.ok [] :=
  ⟨by norm_num, build_table_negative_size rng0 ["a"] (-2) true (by norm_num)⟩

/-- Claim C6: a line of the words file contributes a word exactly when it is
non empty after stripping surrounding whitespace, and the resulting word
set has each word once. -/
theorem word_set_spec (lines : List String) :
    (word_set lines).Nodup ∧
    ∀ w : String, w ∈ word_set lines ↔
      (w ≠ "" ∧ ∃ line ∈ lines, strip line = w) := by
  refine ⟨List.nodup_dedup _, ?_⟩
  intro w
  unfold word_set load_words
  rw [List.mem_dedup, List.mem_filter]
  simp only [List.mem_map]
  constructor
  · rintro ⟨⟨line, hline, rfl⟩, hne⟩
    refine ⟨by simpa using hne, line, hline, rfl⟩
  · rintro ⟨hne, line, hline, rfl⟩
    exact ⟨⟨line, hline, rfl⟩, by simpa using hne⟩

/-- Claim C7 shows a code bug: the program performs no boundary validation
of card size or card count; parse_args accepts any integers and the main
flow then runs to completion, silently producing degenerate output for a
negative size or a zero count instead of rejecting them. -/
theorem no_boundary_validation :
    (parse_args "words.txt" false 1 (-3)).card_size = -3 ∧
    (parse_args "words.txt" false 0 5).num_cards = 0 ∧
    (∃ out, main_program rng0 ["alpha", "beta"]
      (parse_args "words.txt" false 1 (-3)) = Except.ok out) ∧
    (∃ out, main_program rng0 ["alpha", "beta"]
      (parse_args "words.txt" false 0 5) = Except.ok out) :=
  ⟨rfl, rfl, ⟨_, rfl⟩, ⟨_, rfl⟩⟩

/-- Claim C8: a normal cell renders as its HTML entity escaped word, whose
escaped form can no longer contain the markup characters, a bonus cell
renders as the fixed marker, and an empty cell renders as the dash
placeholder. -/
theorem render_field_escapes :
    (∀ w : String, render_field (Field.normal w) = jinja_escape w ∧
      '<' ∉ (jinja_escape w).data ∧ '>' ∉ (jinja_escape w).data) ∧
    render_field FIELD_BONUS = "<strong>Bingo!</strong>" ∧
    render_field FIELD_EMPTY = "-" :=
  ⟨fun w => ⟨rfl, (escape_list_safe w.data).1, (escape_list_safe w.data).2⟩,
   rfl, rfl⟩

/-- Claim C9: rendering is a pure function of the grid sequence; equal
inputs give byte identical output, and grids are immutable values that
rendering cannot modify. -/
theorem render_html_pure (tables₁ tables₂ : List (List (List Field)))
    (h : tables₁ = tables₂) : render_html tables₁ = render_html tables₂ :=
  congrArg render_html h

/-- Witness for claim C9 at a concrete input. -/
theorem render_html_pure_witness :
    ([[[FIELD_EMPTY]]] : List (List (List Field))) = [[[FIELD_EMPTY]]] ∧
    render_html [[[FIELD_EMPTY]]] = render_html [[[FIELD_EMPTY]]] :=
  ⟨rfl, render_html_pure [[[FIELD_EMPTY]]] [[[FIELD_EMPTY]]] rfl⟩

/-- Counterexample to claim C2 as stated: at size 0 with the bonus flag on,
no grid with one bonus cell is produced; build_table raises ValueError. -/
theorem bonus_size_zero_cex :
    ¬ ∃ g, build_table rng0 ([] : List String) 0 true = Except.ok g ∧
      count_bonus g = 1 := by
  rintro ⟨g, hg, -⟩
  rw [show build_table rng0 ([] : List String) 0 true =
      Except.error "ValueError: empty range for randrange()" from rfl] at hg
  exact Except.noConfusion hg

/-- Claim C2 amended: when the rng obeys the randrange contract, a grid
built with the bonus flag on has exactly one bonus cell for every size at
least 1 (at size 0 build_table raises, at negative sizes the grid is empty),
and a grid built with the bonus flag off has zero bonus cells for every
size and word set. -/
theorem build_table_bonus_count (rng : Rng) (values : List String)
    (size : Int) (hR : RandrangeOk rng) :
    (1 ≤ size → ∃ g, build_table rng values size true = Except.ok g ∧
      count_bonus g = 1) ∧
    (∃ g, build_table rng values size false = Except.ok g ∧
      count_bonus g = 0) := by
  constructor
  · intro hs
    have hft0 : field_total size ≠ 0 := by
      rw [Ne, field_total_eq_zero_iff]
      omega
    have hftpos : 0 < field_total size := Nat.pos_of_ne_zero hft0
    refine ⟨group_rows size (table_fields rng values size true), ?_, ?_⟩
    · unfold build_table
      rw [if_neg (by rintro ⟨-, h⟩; exact hft0 h)]
    · unfold count_bonus
      rw [group_rows_flatten size hs, table_fields_true]
      have hrlen : rng.randrange 0 (field_total size) <
          (to_fields (collect_random_sublist rng values (field_total size))
            (field_total size)).length := by
        rw [to_fields_length]
        exact (hR 0 (field_total size) hftpos).2
      have hadd := countP_set_add is_bonus
        (to_fields (collect_random_sublist rng values (field_total size))
          (field_total size))
        (rng.randrange 0 (field_total size)) FIELD_BONUS hrlen
      have hfalse : is_bonus
          ((to_fields (collect_random_sublist rng values (field_total size))
            (field_total size))[rng.randrange 0 (field_total size)]) = false :=
        to_fields_no_bonus _ _ _ (List.getElem_mem hrlen)
      rw [hfalse] at hadd
      rw [countP_is_bonus_to_fields] at hadd
      simpa using hadd
  · refine ⟨group_rows size (table_fields rng values size false), ?_, ?_⟩
    · unfold build_table
      rw [if_neg (by rintro ⟨h, -⟩; exact Bool.false_ne_true h)]
    · rcases le_or_lt size 0 with hle | hlt
      · have hg : group_rows size (table_fields rng values size false) = [] := by
          unfold group_rows
          rw [if_pos hle]
        rw [hg]
        rfl
      · unfold count_bonus
        rw [group_rows_flatten size (by omega), table_fields_false]
        exact countP_is_bonus_to_fields _ _

/-- Witness for the amended claim C2 at a concrete input. -/
theorem build_table_bonus_count_witness :
    RandrangeOk rng0 ∧
    ((1 ≤ (2 : Int) → ∃ g, build_table rng0 ["a"] 2 true = Except.ok g ∧
      count_bonus g = 1) ∧
     (∃ g, build_table rng0 ["a"] 2 false = Except.ok g ∧
      count_bonus g = 0)) :=
  ⟨rng0_randrange_ok, build_table_bonus_count rng0 ["a"] 2 rng0_randrange_ok⟩

/-- Claim C4: when the rng obeys the sample contract and the word set has
no duplicates, every successfully built grid has pairwise distinct normal
cell words, all of them members of the word set, and (for non negative
sizes) exactly size squared cells in total. -/
theorem build_table_normal_cells (rng : Rng) (values : List String)
    (size : Int) (include_bonus_field : Bool) (g : List (List Field))
    (hS : SampleOk rng) (hW : values.Nodup)
    (hg : build_table rng values size include_bonus_field = Except.ok g) :
    (normal_words g).Nodup ∧ (∀ w ∈ normal_words g, w ∈ values) ∧
    (0 ≤ size → g.flatten.length = field_total size) := by
  unfold build_table at hg
  rw [ite_eq_iff] at hg
  rcases hg with ⟨-, hg⟩ | ⟨-, hg⟩
  · exact absurd hg (by simp)
  · obtain rfl := Except.ok.inj hg
    rcases le_or_lt size 0 with hle | hpos
    · have hgr : group_rows size
          (table_fields rng values size include_bonus_field) = [] := by
        unfold group_rows
        rw [if_pos hle]
      rw [hgr]
      refine ⟨by simp [normal_words], by simp [normal_words], ?_⟩
      intro h0
      have hz : size = 0 := le_antisymm hle h0
      subst hz
      rw [(field_total_eq_zero_iff 0).mpr rfl]
      rfl
    · have hs1 : 1 ≤ size := hpos
      obtain ⟨hlen, hsub, hnd⟩ := hS values (min (field_total size)
        values.length) (min_le_right _ _)
      have hsubl := normal_words_build_sublist rng values size
        include_bonus_field hs1
      refine ⟨?_, ?_, ?_⟩
      · exact hsubl.nodup (hnd hW)
      · intro w hw
        exact hsub w (hsubl.subset hw)
      · intro h0
        rw [group_rows_flatten size hs1, table_fields_length]

/-- Witness for claim C4 at a concrete input. -/
theorem build_table_normal_cells_witness :
    SampleOk rng0 ∧ (["a", "b"] : List String).Nodup ∧
    build_table rng0 ["a", "b"] 1 false = Except.ok [[Field.normal "a"]] ∧
    ((normal_words [[Field.normal "a"]]).Nodup ∧
     (∀ w ∈ normal_words [[Field.normal "a"]], w ∈ (["a", "b"] : List String)) ∧
     (0 ≤ (1 : Int) →
      ([[Field.normal "a"]] : List (List Field)).flatten.length =
        field_total 1)) :=
  ⟨rng0_sample_ok, by decide, rfl,
   build_table_normal_cells rng0 ["a", "b"] 1 false [[Field.normal "a"]]
     rng0_sample_ok (by decide) rfl⟩

lemma countP_set_of_both_false {α : Type _} (p : α → Bool) (l : List α)
    (r : Nat) (a : α) (hr : r < l.length) (hl : p l[r] = false)
    (ha : p a = false) : (l.set r a).countP p = l.countP p := by
  have h := countP_set_add p l r a hr
  rw [hl, ha] at h
  simpa using h

lemma countP_set_of_new_true {α : Type _} (p : α → Bool) (l : List α)
    (r : Nat) (a : α) (hr : r < l.length) (hl : p l[r] = false)
    (ha : p a = true) : (l.set r a).countP p = l.countP p + 1 := by
  have h := countP_set_add p l r a hr
  rw [hl, ha] at h
  simpa using h

lemma countP_set_of_old_true {α : Type _} (p : α → Bool) (l : List α)
    (r : Nat) (a : α) (hr : r < l.length) (hl : p l[r] = true)
    (ha : p a = false) : (l.set r a).countP p + 1 = l.countP p := by
  have h := countP_set_add p l r a hr
  rw [hl, ha] at h
  simpa using h

/-- Claim C5: for a word set smaller than the squared size (size at least 1,
rng obeying both contracts), the grid built without bonus has exactly as
many normal cells as there are words and the rest empty; with the bonus
requested, the normal count drops by one exactly when the random bonus
position lands on a normal cell, that is, when it is below the word count,
and otherwise one empty cell is consumed instead. -/
theorem build_table_padding (rng : Rng) (values : List String) (size : Int)
    (hs : 1 ≤ size) (hW : values.length < field_total size)
    (hS : SampleOk rng) (hR : RandrangeOk rng) :
    (∀ g, build_table rng values size false = Except.ok g →
      count_normal g = values.length ∧ count_bonus g = 0 ∧
      count_empty g = field_total size - values.length) ∧
    (∀ g, build_table rng values size true = Except.ok g →
      count_bonus g = 1 ∧
      (rng.randrange 0 (field_total size) < values.length →
        count_normal g = values.length - 1 ∧
        count_empty g = field_total size - values.length) ∧
      (values.length ≤ rng.randrange 0 (field_total size) →
        count_normal g = values.length ∧
        count_empty g = field_total size - values.length - 1)) := by
  have hft0 : field_total size ≠ 0 := by
    rw [Ne, field_total_eq_zero_iff]
    omega
  have hftpos : 0 < field_total size := Nat.pos_of_ne_zero hft0
  obtain ⟨hlen, -, -⟩ := hS values (min (field_total size) values.length)
    (min_le_right _ _)
  have hrvlen : (collect_random_sublist rng values (field_total size)).length
      = values.length := by
    unfold collect_random_sublist
    rw [hlen]
    exact min_eq_right (le_of_lt hW)
  have hrvle : (collect_random_sublist rng values (field_total size)).length
      ≤ field_total size := by
    rw [hrvlen]
    omega
  constructor
  · intro g hg
    unfold build_table at hg
    rw [if_neg (by rintro ⟨h, -⟩; exact Bool.false_ne_true h)] at hg
    obtain rfl := Except.ok.inj hg
    unfold count_normal count_bonus count_empty
    rw [group_rows_flatten size hs, table_fields_false]
    refine ⟨?_, ?_, ?_⟩
    · rw [countP_is_normal_to_fields _ _ hrvle, hrvlen]
    · exact countP_is_bonus_to_fields _ _
    · rw [countP_is_empty_to_fields _ _ hrvle, hrvlen]
  · intro g hg
    unfold build_table at hg
    rw [if_neg (by rintro ⟨-, h⟩; exact hft0 h)] at hg
    obtain rfl := Except.ok.inj hg
    have hr : rng.randrange 0 (field_total size) < field_total size :=
      (hR 0 (field_total size) hftpos).2
    unfold count_normal count_bonus count_empty
    rw [group_rows_flatten size hs, table_fields_true]
    set l := to_fields (collect_random_sublist rng values (field_total size))
      (field_total size) with hldef
    set r := rng.randrange 0 (field_total size) with hrdef
    have hlenl : l.length = field_total size := to_fields_length _ _
    have hrlen : r < l.length := by
      omega
    have hbaseN : l.countP is_normal = values.length := by
      rw [hldef, countP_is_normal_to_fields _ _ hrvle, hrvlen]
    have hbaseE : l.countP is_empty = field_total size - values.length := by
      rw [hldef, countP_is_empty_to_fields _ _ hrvle, hrvlen]
    have hbaseB : l.countP is_bonus = 0 := by
      rw [hldef]
      exact countP_is_bonus_to_fields _ _
    have hnotB : is_bonus l[r] = false :=
      to_fields_no_bonus _ _ _ (List.getElem_mem hrlen)
    refine ⟨?_, ?_, ?_⟩
    · rw [countP_set_of_new_true is_bonus l r FIELD_BONUS hrlen hnotB rfl,
        hbaseB]
    · intro hlt
      have hq : r < (collect_random_sublist rng values
          (field_total size)).length := by
        rw [hrvlen]
        exact hlt
      have hget : l[r] = Field.normal
          ((collect_random_sublist rng values (field_total size)).get
            ⟨r, hq⟩) :=
        to_fields_getElem_lt _ _ _ hrvle hq
          (by rw [to_fields_length]; exact hr)
      constructor
      · have hone := countP_set_of_old_true is_normal l r FIELD_BONUS hrlen
          (by rw [hget]; rfl) rfl
        rw [hbaseN] at hone
        omega
      · have hsame := countP_set_of_both_false is_empty l r FIELD_BONUS hrlen
          (by rw [hget]; rfl) rfl
        rw [hsame, hbaseE]
    · intro hge
      have hq : (collect_random_sublist rng values
          (field_total size)).length ≤ r := by
        rw [hrvlen]
        exact hge
      have hget : l[r] = FIELD_EMPTY :=
        to_fields_getElem_ge _ _ _ hrvle hq
          (by rw [to_fields_length]; exact hr)
      constructor
      · have hsame := countP_set_of_both_false is_normal l r FIELD_BONUS hrlen
          (by rw [hget]; rfl) rfl
        rw [hsame, hbaseN]
      · have hone := countP_set_of_old_true is_empty l r FIELD_BONUS hrlen
          (by rw [hget]; rfl) rfl
        rw [hbaseE] at hone
        omega

/-- Witness for claim C5 at a concrete input. -/
theorem build_table_padding_witness :
    (1 : Int) ≤ 2 ∧ (["a"] : List String).length < field_total 2 ∧
    SampleOk rng0 ∧ RandrangeOk rng0 ∧
    ((∀ g, build_table rng0 ["a"] 2 false = Except.ok g →
      count_normal g = (["a"] : List String).length ∧ count_bonus g = 0 ∧
      count_empty g = field_total 2 - (["a"] : List String).length) ∧
     (∀ g, build_table rng0 ["a"] 2 true = Except.ok g →
      count_bonus g = 1 ∧
      (rng0.randrange 0 (field_total 2) < (["a"] : List String).length →
        count_normal g = (["a"] : List String).length - 1 ∧
        count_empty g = field_total 2 - (["a"] : List String).length) ∧
      ((["a"] : List String).length ≤ rng0.randrange 0 (field_total 2) →
        count_normal g = (["a"] : List String).length ∧
        count_empty g = field_total 2 - (["a"] : List String).length - 1))) :=
  ⟨by norm_num, by decide, rng0_sample_ok, rng0_randrange_ok,
   build_table_padding rng0 ["a"] 2 (by norm_num) (by decide)
     rng0_sample_ok rng0_randrange_ok⟩

end Bingo
